import Mathlib

/-!
Shallow embedding of the portfolio valuation engine of `src/app.py`
(investment-dashboard).  Numbers are modelled as rationals, Python dicts as
association lists over `String` keys, and the grid-edit diff logic of the
"save stocks" / "save crypto" handlers inside `display_dashboard` as explicit
step functions on a state carrying the linked cash-account balance and the
transaction log.
-/

namespace InvestmentDashboard

/-- Python `dict` lookup on an association list: the first binding wins
(dict keys are unique, so this matches `d[k]` / `d.get(k)`). -/
def alookup {β : Type} (k : String) : List (String × β) → Option β
  | [] => none
  | p :: rest => if p.1 = k then some p.2 else alookup k rest

/-- Python `d.get(k, v)` on a numeric dict. -/
def dictGetD (d : List (String × ℚ)) (k : String) (v : ℚ) : ℚ :=
  (alookup k d).getD v

/-- Python `d[k] = v`: overwrite the binding in place, or append it. -/
def dinsert {β : Type} (k : String) (v : β) : List (String × β) → List (String × β)
  | [] => [(k, v)]
  | p :: rest => if p.1 = k then (k, v) :: rest else p :: dinsert k v rest

/-- Python `abs` on a rational. -/
def pyAbs (q : ℚ) : ℚ := if q < 0 then -q else q

/-- `exchange_rates.get(c, 1)` — the FX-rate lookup used throughout
`display_dashboard` (e.g. lines 479-484, 745-767): a missing currency
silently defaults to rate 1. -/
def rateGet (rates : List (String × ℚ)) (c : String) : ℚ :=
  dictGetD rates c 1

/-- The same lookup when the currency value may be pandas `NaN` (modelled as
`none`): `exchange_rates.get(nan, 1) = 1`.  In the stock diff loop the
currency is `row.get('currency_new', ...)`, which is `NaN` exactly when the
edited row was deleted. -/
def rateGetN (rates : List (String × ℚ)) (c : Option String) : ℚ :=
  match c with
  | some s => rateGet rates s
  | none => 1

/-- `prices.get(t, 0)` — price lookups in the diff loops default to 0. -/
def priceGet (prices : List (String × ℚ)) (t : String) : ℚ :=
  dictGetD prices t 0

/-- `get_prices_from_market_data` (src/app.py lines 204-209): for each ticker
`t`, store `market_data.get(t, {}).get("latest_price", 0)` under the key
`t.replace('-USD', '')`.  `marketData` maps a yfinance ticker to its
`latest_price`. -/
def get_prices_from_market_data (marketData : List (String × ℚ))
    (tickers : List String) : List (String × ℚ) :=
  tickers.foldl (fun acc t => dinsert (t.replace "-USD" "") (dictGetD marketData t 0) acc) []

/-- The in-line currency conversion of `display_dashboard`
(e.g. line 745: `(amount / exchange_rates.get(currency, 1)) *
exchange_rates.get(cash_acct['currency'], 1)`); the rate table maps a
currency to its rate per one USD. -/
def convert (amount : ℚ) (fromCurrency toCurrency : String)
    (rates : List (String × ℚ)) : ℚ :=
  amount / rateGet rates fromCurrency * rateGet rates toCurrency

/-- One row of the stock grid (`schema` at line 698): quantity,
average cost and currency of one ticker. -/
structure StockRow where
  quantity : ℚ
  average_cost : ℚ
  currency : String
deriving DecidableEq

/-- One row of the crypto grid (`schema` at line 774): quantity and USD
average cost of one symbol (crypto rows carry no currency field). -/
structure CryptoRow where
  quantity : ℚ
  average_cost : ℚ
deriving DecidableEq

/-- One entry of `user_profile["transactions"]` as built by
`add_transaction` (lines 632-640); the timestamp is omitted. -/
structure Tx where
  description : String
  type : String
  amount : ℚ
  currency : String
  account : String
  symbol : Option String
  quantity : Option ℚ
  realized_pl : Option ℚ
  pl_currency : Option String
deriving DecidableEq

/-- The mutable state threaded through one save: the linked cash account's
balance and the transaction log (new entries are prepended, matching
`insert(0, new_tx)`). -/
structure SaveState where
  balance : ℚ
  transactions : List Tx
deriving DecidableEq

/-- The body of the stock diff loop (src/app.py lines 734-768), for one
merged row of `stock_before_df.merge(stock_after_df, how='outer')`.
`oldRow`/`newRow` are the pre-edit and post-edit rows (`none` models the
pandas `NaN` side of an outer merge).  The loop's `currency` variable is
`row.get('currency_new', ...)`, i.e. the edited row's currency, `NaN`
(here `none`) when the row was deleted. -/
def stockRowStep (rates prices : List (String × ℚ)) (cashCurrency cashName ticker : String) :
    Option StockRow → Option StockRow → SaveState → SaveState
  | none, none, st => st
  | none, some n, st =>
      let amount := n.quantity * n.average_cost
      ⟨st.balance - amount / rateGetN rates (some n.currency) * rateGet rates cashCurrency,
        ⟨"[自动] 买入 " ++ ticker, "买入股票", amount, cashCurrency, cashName,
          some ticker, some n.quantity, none, none⟩ :: st.transactions⟩
  | some o, none, st =>
      let price := priceGet prices ticker
      let amount := o.quantity * price
      ⟨st.balance + amount / rateGetN rates none * rateGet rates cashCurrency,
        ⟨"[自动] 卖出 " ++ ticker, "卖出股票", amount, cashCurrency, cashName,
          some ticker, some o.quantity, some ((price - o.average_cost) * o.quantity),
          none⟩ :: st.transactions⟩
  | some o, some n, st =>
      let qdiff := n.quantity - o.quantity
      if 0 < qdiff then
        let amount := n.quantity * n.average_cost - o.quantity * o.average_cost
        ⟨st.balance - amount / rateGetN rates (some n.currency) * rateGet rates cashCurrency,
          ⟨"[自动] 买入 " ++ ticker, "买入股票", amount, cashCurrency, cashName,
            some ticker, some qdiff, none, none⟩ :: st.transactions⟩
      else if qdiff < 0 then
        let qsold := pyAbs qdiff
        let price := priceGet prices ticker
        let amount := qsold * price
        ⟨st.balance + amount / rateGetN rates (some n.currency) * rateGet rates cashCurrency,
          ⟨"[自动] 卖出 " ++ ticker, "卖出股票", amount, cashCurrency, cashName,
            some ticker, some qsold, some ((price - o.average_cost) * qsold),
            some n.currency⟩ :: st.transactions⟩
      else st

/-- The body of the crypto diff loop (src/app.py lines 796-830).  It is the
stock loop with the cost-basis currency fixed to `"USD"` (line 801) and the
price looked up by symbol. -/
def cryptoRowStep (rates prices : List (String × ℚ)) (cashCurrency cashName symbol : String) :
    Option CryptoRow → Option CryptoRow → SaveState → SaveState
  | none, none, st => st
  | none, some n, st =>
      let amount := n.quantity * n.average_cost
      ⟨st.balance - amount / rateGet rates "USD" * rateGet rates cashCurrency,
        ⟨"[自动] 买入 " ++ symbol, "买入加密货币", amount, cashCurrency, cashName,
          some symbol, some n.quantity, none, none⟩ :: st.transactions⟩
  | some o, none, st =>
      let price := priceGet prices symbol
      let amount := o.quantity * price
      ⟨st.balance + amount / rateGet rates "USD" * rateGet rates cashCurrency,
        ⟨"[自动] 卖出 " ++ symbol, "卖出加密货币", amount, cashCurrency, cashName,
          some symbol, some o.quantity, some ((price - o.average_cost) * o.quantity),
          some "USD"⟩ :: st.transactions⟩
  | some o, some n, st =>
      let qdiff := n.quantity - o.quantity
      if 0 < qdiff then
        let amount := n.quantity * n.average_cost - o.quantity * o.average_cost
        ⟨st.balance - amount / rateGet rates "USD" * rateGet rates cashCurrency,
          ⟨"[自动] 买入 " ++ symbol, "买入加密货币", amount, cashCurrency, cashName,
            some symbol, some qdiff, none, none⟩ :: st.transactions⟩
      else if qdiff < 0 then
        let qsold := pyAbs qdiff
        let price := priceGet prices symbol
        let amount := qsold * price
        ⟨st.balance + amount / rateGet rates "USD" * rateGet rates cashCurrency,
          ⟨"[自动] 卖出 " ++ symbol, "卖出加密货币", amount, cashCurrency, cashName,
            some symbol, some qsold, some ((price - o.average_cost) * qsold),
            some "USD"⟩ :: st.transactions⟩
      else st

/-- The outer merge of the before/after stock tables on the ticker index:
tickers of the before table first (paired with their edited row, if any),
then the tickers that only appear in the edited table. -/
def mergeRows (before edited : List (String × StockRow)) :
    List (String × Option StockRow × Option StockRow) :=
  before.map (fun p => (p.1, some p.2, alookup p.1 edited)) ++
    (edited.filter (fun p => (alookup p.1 before).isNone)).map
      (fun p => (p.1, none, some p.2))

/-- Result of one "save stocks" click: the stored stock list, the linked
cash account's balance and the transaction log. -/
structure StockSaveResult where
  stocks : List (String × StockRow)
  balance : ℚ
  transactions : List Tx
deriving DecidableEq

/-- The completed-save path of the "save stocks" handler (src/app.py lines
730-771), reached when the edited grid is non-empty and its tickers
validated: run the diff loop over the merged rows, then store the edited
list verbatim (`user_portfolio["stocks"] = edited_list`, line 770). -/
def applyStockSave (rates prices : List (String × ℚ)) (cashCurrency cashName : String)
    (before edited : List (String × StockRow)) (balance0 : ℚ) (txs0 : List Tx) :
    StockSaveResult :=
  let st := (mergeRows before edited).foldl
    (fun s row => stockRowStep rates prices cashCurrency cashName row.1 row.2.1 row.2.2 s)
    ⟨balance0, txs0⟩
  ⟨edited, st.balance, st.transactions⟩

/-- The whole "save stocks" click (src/app.py lines 710-771) with its abort
path.  When every row was deleted, `edited_list` is empty and
`pd.DataFrame([]).set_index('ticker')` at line 730 raises `KeyError` (an
empty record list has no columns), so the handler dies before recording any
transaction or storing anything — `none`, the stored portfolio keeps its
previous value.  (Upstream, `st.stop()` at lines 725-727 aborts likewise
when a new ticker cannot be validated; rows here are modelled as already
validated, each carrying its currency.)  A non-empty edited grid completes
the save. -/
def saveStocksClick (rates prices : List (String × ℚ)) (cashCurrency cashName : String)
    (before edited : List (String × StockRow)) (balance0 : ℚ) (txs0 : List Tx) :
    Option StockSaveResult :=
  match edited with
  | [] => none
  | _ :: _ => some (applyStockSave rates prices cashCurrency cashName before edited balance0 txs0)

/-- A persisted daily snapshot document as built by `update_asset_snapshot`
(src/app.py lines 289-300). -/
structure SnapshotDoc where
  date : String
  total_assets_usd : ℚ
  total_liabilities_usd : ℚ
  net_worth_usd : ℚ
  total_stock_value_usd : ℚ
  total_cash_balance_usd : ℚ
  total_crypto_value_usd : ℚ
  total_gold_value_usd : ℚ
  exchange_rates : List (String × ℚ)
deriving DecidableEq

/-- The snapshot document built at lines 289-300; `net_worth_usd` is
`total_assets_usd - total_liabilities_usd`. -/
def mkSnapshot (todayStr : String) (assets liabilities stockV cashV cryptoV goldV : ℚ)
    (rates : List (String × ℚ)) : SnapshotDoc :=
  ⟨todayStr, assets, liabilities, assets - liabilities, stockV, cashV, cryptoV, goldV, rates⟩

/-- The OneDrive path of the snapshot of one user and day. -/
def snapshotPath (emailHash todayStr : String) : String :=
  "history/" ++ emailHash ++ "/" ++ todayStr ++ ".json"

/-- `update_asset_snapshot` (src/app.py lines 285-301): the durable store is
an association list keyed by path.  If a document already exists at the
user's path for today it is left untouched; otherwise the freshly built
snapshot is written. -/
def update_asset_snapshot (store : List (String × SnapshotDoc)) (emailHash todayStr : String)
    (assets liabilities stockV cashV cryptoV goldV : ℚ) (rates : List (String × ℚ)) :
    List (String × SnapshotDoc) :=
  match alookup (snapshotPath emailHash todayStr) store with
  | some _ => store
  | none =>
      (snapshotPath emailHash todayStr,
        mkSnapshot todayStr assets liabilities stockV cashV cryptoV goldV rates) :: store

/-- A snapshot as read back by `get_asset_history`, reduced to the fields
`get_closest_snapshot` inspects: the date (the `'YYYY-MM-DD'` strings compare
lexicographically, i.e. chronologically, so dates are modelled as naturals)
and an abstract payload. -/
structure Snapshot where
  date : ℕ
  net_worth_usd : ℚ
deriving DecidableEq

/-- `get_closest_snapshot` (src/app.py lines 278-283): `None` on an empty
history, otherwise filter the snapshots dated on or before the target and
take Python's `max` by date (which keeps the earliest of equal maxima). -/
def get_closest_snapshot (targetDate : ℕ) (assetHistory : List Snapshot) : Option Snapshot :=
  match assetHistory with
  | [] => none
  | _ :: _ =>
    match assetHistory.filter (fun s => decide (s.date ≤ targetDate)) with
    | [] => none
    | x :: xs => some (xs.foldl (fun b y => if b.date < y.date then y else b) x)

/-- Repeated single-ticker saves: starting from the current row of one
ticker, apply a list of edits, each edit being the (quantity, average_cost)
pair typed into the grid; every edit runs the diff-loop body
`stockRowStep` against the previous row and the edited row becomes the
stored one.  The grid's currency column is disabled, so the currency is
fixed. -/
def applyStockEdits (rates prices : List (String × ℚ)) (cashCurrency cashName ticker currency : String) :
    Option StockRow → List (ℚ × ℚ) → SaveState → Option StockRow × SaveState
  | cur, [], st => (cur, st)
  | cur, e :: rest, st =>
      let n : StockRow := ⟨e.1, e.2, currency⟩
      applyStockEdits rates prices cashCurrency cashName ticker currency (some n) rest
        (stockRowStep rates prices cashCurrency cashName ticker cur (some n) st)

/-- A list of edits is a chain of Buys when every edited quantity strictly
exceeds the previous one (so each edit takes the `qty_diff > 0` branch of
the diff loop, and the first one from quantity `q` is a buy of `e.1 - q`). -/
def buyChainB : ℚ → List (ℚ × ℚ) → Bool
  | _, [] => true
  | q, e :: rest => decide (q < e.1) && buyChainB e.1 rest

/-! ### Helper lemmas -/

theorem rateGetN_some (rates : List (String × ℚ)) (c : String) :
    rateGetN rates (some c) = rateGet rates c := rfl

/-- The `qty_diff < 0` ("Sold some") branch of the stock diff loop,
lines 762-768. -/
theorem stockRowStep_sell (rates prices : List (String × ℚ)) (cc cn ticker : String)
    (o n : StockRow) (st : SaveState) (h : n.quantity < o.quantity) :
    stockRowStep rates prices cc cn ticker (some o) (some n) st =
      ⟨st.balance + (o.quantity - n.quantity) * priceGet prices ticker /
          rateGet rates n.currency * rateGet rates cc,
        ⟨"[自动] 卖出 " ++ ticker, "卖出股票",
          (o.quantity - n.quantity) * priceGet prices ticker, cc, cn,
          some ticker, some (o.quantity - n.quantity),
          some ((priceGet prices ticker - o.average_cost) * (o.quantity - n.quantity)),
          some n.currency⟩ :: st.transactions⟩ := by
  have h1 : ¬ (0 < n.quantity - o.quantity) := by linarith
  have h2 : n.quantity - o.quantity < 0 := by linarith
  have habs : pyAbs (n.quantity - o.quantity) = o.quantity - n.quantity := by
    rw [pyAbs, if_pos h2]; ring
  simp only [stockRowStep, if_neg h1, if_pos h2, habs, rateGetN_some]

/-- The `qty_diff > 0` ("Bought more") branch of the stock diff loop,
lines 755-760. -/
theorem stockRowStep_buy (rates prices : List (String × ℚ)) (cc cn ticker : String)
    (o n : StockRow) (st : SaveState) (h : o.quantity < n.quantity) :
    stockRowStep rates prices cc cn ticker (some o) (some n) st =
      ⟨st.balance - (n.quantity * n.average_cost - o.quantity * o.average_cost) /
          rateGet rates n.currency * rateGet rates cc,
        ⟨"[自动] 买入 " ++ ticker, "买入股票",
          n.quantity * n.average_cost - o.quantity * o.average_cost, cc, cn,
          some ticker, some (n.quantity - o.quantity), none, none⟩ :: st.transactions⟩ := by
  have h1 : 0 < n.quantity - o.quantity := by linarith
  simp only [stockRowStep, if_pos h1, rateGetN_some]

/-- The "New holding (Buy)" branch of the stock diff loop, lines 743-746. -/
theorem stockRowStep_create (rates prices : List (String × ℚ)) (cc cn ticker : String)
    (n : StockRow) (st : SaveState) :
    stockRowStep rates prices cc cn ticker none (some n) st =
      ⟨st.balance - n.quantity * n.average_cost / rateGet rates n.currency * rateGet rates cc,
        ⟨"[自动] 买入 " ++ ticker, "买入股票", n.quantity * n.average_cost, cc, cn,
          some ticker, some n.quantity, none, none⟩ :: st.transactions⟩ := rfl

/-- The "Sold all (Sell)" branch of the stock diff loop, lines 748-753:
the merged row's `currency_new` is pandas `NaN`, so the FX lookup silently
uses rate 1 and the recorded `pl_currency` is `NaN` (`none`). -/
theorem stockRowStep_delete (rates prices : List (String × ℚ)) (cc cn ticker : String)
    (o : StockRow) (st : SaveState) :
    stockRowStep rates prices cc cn ticker (some o) none st =
      ⟨st.balance + o.quantity * priceGet prices ticker / rateGetN rates none * rateGet rates cc,
        ⟨"[自动] 卖出 " ++ ticker, "卖出股票", o.quantity * priceGet prices ticker, cc, cn,
          some ticker, some o.quantity,
          some ((priceGet prices ticker - o.average_cost) * o.quantity),
          none⟩ :: st.transactions⟩ := rfl

/-- The `qty_diff < 0` ("Sold some") branch of the crypto diff loop,
lines 824-830. -/
theorem cryptoRowStep_sell (rates prices : List (String × ℚ)) (cc cn symbol : String)
    (o n : CryptoRow) (st : SaveState) (h : n.quantity < o.quantity) :
    cryptoRowStep rates prices cc cn symbol (some o) (some n) st =
      ⟨st.balance + (o.quantity - n.quantity) * priceGet prices symbol /
          rateGet rates "USD" * rateGet rates cc,
        ⟨"[自动] 卖出 " ++ symbol, "卖出加密货币",
          (o.quantity - n.quantity) * priceGet prices symbol, cc, cn,
          some symbol, some (o.quantity - n.quantity),
          some ((priceGet prices symbol - o.average_cost) * (o.quantity - n.quantity)),
          some "USD"⟩ :: st.transactions⟩ := by
  have h1 : ¬ (0 < n.quantity - o.quantity) := by linarith
  have h2 : n.quantity - o.quantity < 0 := by linarith
  have habs : pyAbs (n.quantity - o.quantity) = o.quantity - n.quantity := by
    rw [pyAbs, if_pos h2]; ring
  simp only [cryptoRowStep, if_neg h1, if_pos h2, habs]

/-- A successful `alookup` returns the value of a list member with the
looked-up key. -/
theorem alookup_eq_some_mem {β : Type} {k : String} {v : β} :
    ∀ {d : List (String × β)}, alookup k d = some v → ∃ p ∈ d, p.1 = k ∧ p.2 = v := by
  intro d
  induction d with
  | nil => intro h; simp [alookup] at h
  | cons p rest ih =>
      intro h
      by_cases hk : p.1 = k
      · refine ⟨p, by simp, hk, ?_⟩
        simp only [alookup, if_pos hk] at h
        exact Option.some_injective _ h
      · simp only [alookup, if_neg hk] at h
        obtain ⟨q, hq, hq1, hq2⟩ := ih h
        exact ⟨q, by simp [hq], hq1, hq2⟩

/-- Every member of `dinsert k v d` is `(k, v)` or a member of `d`. -/
theorem mem_dinsert {β : Type} {k : String} {v : β} :
    ∀ {d : List (String × β)} {p : String × β}, p ∈ dinsert k v d → p = (k, v) ∨ p ∈ d := by
  intro d
  induction d with
  | nil => intro p hp; simp [dinsert] at hp; exact Or.inl hp
  | cons q rest ih =>
      intro p hp
      by_cases hk : q.1 = k
      · simp only [dinsert, if_pos hk, List.mem_cons] at hp
        rcases hp with h | h
        · exact Or.inl h
        · exact Or.inr (by simp [h])
      · simp only [dinsert, if_neg hk, List.mem_cons] at hp
        rcases hp with h | h
        · exact Or.inr (by simp [h])
        · rcases ih h with h' | h'
          · exact Or.inl h'
          · exact Or.inr (by simp [h'])

/-- If every value of the dict is 0, every defaulted-to-0 lookup is 0. -/
theorem priceGet_of_allZero {d : List (String × ℚ)}
    (h : ∀ p ∈ d, p.2 = 0) (s : String) : priceGet d s = 0 := by
  unfold priceGet dictGetD
  cases hl : alookup s d with
  | none => rfl
  | some v =>
      obtain ⟨p, hp, _, hp2⟩ := alookup_eq_some_mem hl
      simpa [hp2] using h p hp

/-- `alookup` of a key that heads the list. -/
theorem alookup_cons_self {β : Type} (k : String) (v : β) (d : List (String × β)) :
    alookup k ((k, v) :: d) = some v := by
  simp [alookup]

/-- A key that `alookup` misses has no occurrence counted. -/
theorem countP_eq_zero_of_alookup_none {β : Type} {k : String} :
    ∀ {d : List (String × β)}, alookup k d = none →
      d.countP (fun p => decide (p.1 = k)) = 0 := by
  intro d
  induction d with
  | nil => intro _; simp
  | cons p rest ih =>
      intro h
      by_cases hk : p.1 = k
      · simp [alookup, if_pos hk] at h
      · simp only [alookup, if_neg hk] at h
        rw [List.countP_cons]
        simp [hk, ih h]

/-- Any fold of `dinsert`s of value 0 over an all-zero dict leaves every
stored price 0; used for the missing-market-data case of
`get_prices_from_market_data`. -/
theorem foldl_dinsert_allZero (marketData : List (String × ℚ)) :
    ∀ (ts : List String) (acc : List (String × ℚ)),
      (∀ p ∈ acc, p.2 = (0 : ℚ)) → (∀ t ∈ ts, alookup t marketData = none) →
      ∀ p ∈ ts.foldl
        (fun acc t => dinsert (t.replace "-USD" "") (dictGetD marketData t 0) acc) acc,
        p.2 = (0 : ℚ) := by
  intro ts
  induction ts with
  | nil => intro acc hacc _ p hp; exact hacc p hp
  | cons t rest ih =>
      intro acc hacc hmd p hp
      simp only [List.foldl_cons] at hp
      have hval : dictGetD marketData t 0 = 0 := by
        have h := hmd t (by simp)
        simp [dictGetD, h]
      refine ih _ ?_ ?_ p hp
      · intro q hq
        rcases mem_dinsert hq with h | h
        · rw [h]; exact hval
        · exact hacc q h
      · intro u hu
        exact hmd u (by simp [hu])

/-! ### Claims -/

/-- Claim C1, counterexample.  The claim says a Sell whose quantity exceeds
the holding's current quantity fails with `InsufficientHoldings`, records no
transaction and leaves portfolio and cash unchanged.  The save handler has no
such check: editing the AAPL quantity from 10 to -5 sells
`10 - (-5) = 15 > 10` shares, yet a sell transaction IS recorded, the linked
cash balance changes from 1000 to `1000 + 15 * 20 = 1300`, and the oversold
row is stored. -/
theorem claim_C1_counterexample :
    ((10 : ℚ) - (-5) > 10) ∧
    (applyStockSave [("USD", 1)] [("AAPL", 20)] "USD" "Main"
      [("AAPL", ⟨10, 10, "USD"⟩)] [("AAPL", ⟨-5, 10, "USD"⟩)] 1000 []).transactions.length = 1 ∧
    (applyStockSave [("USD", 1)] [("AAPL", 20)] "USD" "Main"
      [("AAPL", ⟨10, 10, "USD"⟩)] [("AAPL", ⟨-5, 10, "USD"⟩)] 1000 []).balance = 1300 ∧
    (applyStockSave [("USD", 1)] [("AAPL", 20)] "USD" "Main"
      [("AAPL", ⟨10, 10, "USD"⟩)] [("AAPL", ⟨-5, 10, "USD"⟩)] 1000 []).stocks =
      [("AAPL", ⟨-5, 10, "USD"⟩)] := by
  norm_num [applyStockSave, mergeRows, alookup, stockRowStep, pyAbs, priceGet, rateGet,
    rateGetN, dictGetD]

/-- Claim C1, amended.  A Sell is derived from lowering a holding's quantity
cell; there is no `InsufficientHoldings` check.  Every quantity decrease —
including one below zero, i.e. a sell exceeding the holding — is recorded as
a sell of `old - new` units at market price with the cash account credited;
only when the edited quantity is nonnegative is the quantity sold bounded by
the held quantity.  Both the stock and the crypto diff loops behave this
way. -/
theorem claim_C1_amended :
    (∀ (rates prices : List (String × ℚ)) (cc cn ticker : String) (o n : StockRow)
      (st : SaveState), n.quantity < o.quantity →
      stockRowStep rates prices cc cn ticker (some o) (some n) st =
        ⟨st.balance + (o.quantity - n.quantity) * priceGet prices ticker /
            rateGet rates n.currency * rateGet rates cc,
          ⟨"[自动] 卖出 " ++ ticker, "卖出股票",
            (o.quantity - n.quantity) * priceGet prices ticker, cc, cn, some ticker,
            some (o.quantity - n.quantity),
            some ((priceGet prices ticker - o.average_cost) * (o.quantity - n.quantity)),
            some n.currency⟩ :: st.transactions⟩ ∧
        (0 ≤ n.quantity → o.quantity - n.quantity ≤ o.quantity)) ∧
    (∀ (rates prices : List (String × ℚ)) (cc cn symbol : String) (o n : CryptoRow)
      (st : SaveState), n.quantity < o.quantity →
      cryptoRowStep rates prices cc cn symbol (some o) (some n) st =
        ⟨st.balance + (o.quantity - n.quantity) * priceGet prices symbol /
            rateGet rates "USD" * rateGet rates cc,
          ⟨"[自动] 卖出 " ++ symbol, "卖出加密货币",
            (o.quantity - n.quantity) * priceGet prices symbol, cc, cn, some symbol,
            some (o.quantity - n.quantity),
            some ((priceGet prices symbol - o.average_cost) * (o.quantity - n.quantity)),
            some "USD"⟩ :: st.transactions⟩ ∧
        (0 ≤ n.quantity → o.quantity - n.quantity ≤ o.quantity)) := by
  constructor
  · intro rates prices cc cn ticker o n st h
    exact ⟨stockRowStep_sell rates prices cc cn ticker o n st h, fun h0 => by linarith⟩
  · intro rates prices cc cn symbol o n st h
    exact ⟨cryptoRowStep_sell rates prices cc cn symbol o n st h, fun h0 => by linarith⟩

/-- Claim C1, witness: the amended theorem applied to a partial sell of 4 of
10 AAPL at price 20; the recorded transaction and credited amount are
computed. -/
theorem claim_C1_witness :
    (stockRowStep [("USD", 1)] [("AAPL", 20)] "USD" "Main" "AAPL"
      (some ⟨10, 10, "USD"⟩) (some ⟨6, 10, "USD"⟩) ⟨1000, []⟩).transactions.length = 1 ∧
    (stockRowStep [("USD", 1)] [("AAPL", 20)] "USD" "Main" "AAPL"
      (some ⟨10, 10, "USD"⟩) (some ⟨6, 10, "USD"⟩) ⟨1000, []⟩).balance = 1080 := by
  obtain ⟨heq, hbound⟩ := claim_C1_amended.1 [("USD", 1)] [("AAPL", 20)] "USD" "Main" "AAPL"
    ⟨10, 10, "USD"⟩ ⟨6, 10, "USD"⟩ ⟨1000, []⟩ (by norm_num)
  rw [heq]
  constructor
  · simp
  · norm_num [priceGet, rateGet, dictGetD, alookup]

/-- Claim C2, counterexample.  The claim says a partial sell leaves
`average_cost` unchanged and only the quantity changes.  The save handler
stores the edited row verbatim: editing AAPL from (quantity 10, cost 10) to
(quantity 6, cost 99) is recorded as a partial sell of 4, yet the stored
average cost afterwards is 99, not 10. -/
theorem claim_C2_counterexample :
    ((0 : ℚ) < 10 - 6 ∧ (10 : ℚ) - 6 < 10) ∧
    (applyStockSave [("USD", 1)] [("AAPL", 20)] "USD" "Main"
      [("AAPL", ⟨10, 10, "USD"⟩)] [("AAPL", ⟨6, 99, "USD"⟩)] 1000 []).transactions.length = 1 ∧
    (applyStockSave [("USD", 1)] [("AAPL", 20)] "USD" "Main"
      [("AAPL", ⟨10, 10, "USD"⟩)] [("AAPL", ⟨6, 99, "USD"⟩)] 1000 []).transactions.map
        Tx.type = ["卖出股票"] ∧
    (applyStockSave [("USD", 1)] [("AAPL", 20)] "USD" "Main"
      [("AAPL", ⟨10, 10, "USD"⟩)] [("AAPL", ⟨6, 99, "USD"⟩)] 1000 []).stocks =
      [("AAPL", ⟨6, 99, "USD"⟩)] ∧
    (99 : ℚ) ≠ 10 := by
  norm_num [applyStockSave, mergeRows, alookup, stockRowStep, pyAbs, priceGet, rateGet,
    rateGetN, dictGetD]

/-- Claim C2, amended.  For a partial sell whose edit changes only the
quantity cell (average cost and currency left unchanged — the currency
column is disabled in the grid anyway), the stored holding differs from the
old one only in its quantity, and the realized P&L of the recorded sell is
always computed from the pre-edit average cost. -/
theorem claim_C2_amended :
    ∀ (rates prices : List (String × ℚ)) (cc cn ticker : String) (o n : StockRow)
      (st : SaveState), n.quantity < o.quantity → n.average_cost = o.average_cost →
      n.currency = o.currency →
      n = ⟨n.quantity, o.average_cost, o.currency⟩ ∧
      (stockRowStep rates prices cc cn ticker (some o) (some n) st).transactions =
        ⟨"[自动] 卖出 " ++ ticker, "卖出股票",
          (o.quantity - n.quantity) * priceGet prices ticker, cc, cn, some ticker,
          some (o.quantity - n.quantity),
          some ((priceGet prices ticker - o.average_cost) * (o.quantity - n.quantity)),
          some o.currency⟩ :: st.transactions := by
  intro rates prices cc cn ticker o n st hq hcost hcur
  constructor
  · obtain ⟨nq, nc, ncur⟩ := n
    simp only at hcost hcur
    rw [hcost, hcur]
  · rw [stockRowStep_sell rates prices cc cn ticker o n st hq, hcur]

/-- Claim C2, witness: the amended theorem applied to the spec's own
example, Sell 4 out of 10 units held at average cost 10. -/
theorem claim_C2_witness :
    (⟨6, 10, "USD"⟩ : StockRow) = ⟨6, 10, "USD"⟩ ∧
    (stockRowStep [("USD", 1)] [("AAPL", 20)] "USD" "Main" "AAPL"
      (some ⟨10, 10, "USD"⟩) (some ⟨6, 10, "USD"⟩) ⟨1000, []⟩).transactions =
      [⟨"[自动] 卖出 " ++ "AAPL", "卖出股票", ((10 : ℚ) - 6) * priceGet [("AAPL", 20)] "AAPL",
        "USD", "Main", some "AAPL", some ((10 : ℚ) - 6),
        some ((priceGet [("AAPL", 20)] "AAPL" - 10) * ((10 : ℚ) - 6)), some "USD"⟩] :=
  claim_C2_amended [("USD", 1)] [("AAPL", 20)] "USD" "Main" "AAPL"
    ⟨10, 10, "USD"⟩ ⟨6, 10, "USD"⟩ ⟨1000, []⟩ (by norm_num) rfl rfl

/-- Claim C3, counterexample.  The claim says a Sell driving the quantity to
zero removes the holding and that no zero-quantity row is ever retained.
Editing the AAPL quantity from 10 to exactly 0 records a sell of the full 10
units, yet the zero-quantity row is kept in the stored portfolio. -/
theorem claim_C3_counterexample :
    (applyStockSave [("USD", 1)] [("AAPL", 20)] "USD" "Main"
      [("AAPL", ⟨10, 10, "USD"⟩)] [("AAPL", ⟨0, 10, "USD"⟩)] 1000 []).transactions.map
        Tx.quantity = [some 10] ∧
    (applyStockSave [("USD", 1)] [("AAPL", 20)] "USD" "Main"
      [("AAPL", ⟨10, 10, "USD"⟩)] [("AAPL", ⟨0, 10, "USD"⟩)] 1000 []).transactions.map
        Tx.type = ["卖出股票"] ∧
    alookup "AAPL" (applyStockSave [("USD", 1)] [("AAPL", 20)] "USD" "Main"
      [("AAPL", ⟨10, 10, "USD"⟩)] [("AAPL", ⟨0, 10, "USD"⟩)] 1000 []).stocks =
      some ⟨0, 10, "USD"⟩ := by
  norm_num [applyStockSave, mergeRows, alookup, stockRowStep, pyAbs, priceGet, rateGet,
    rateGetN, dictGetD]

/-- Claim C3, amended.  A deletion that empties the grid crashes the handler
at line 730 (`KeyError` on `set_index`) before anything is recorded or
stored, leaving the portfolio unchanged.  When the save completes (the
edited grid is non-empty), a holding is absent from the stored portfolio
exactly when its row was deleted, and deleting a row records a
full-liquidation sell of the entire quantity at market price; the stored
stock list is the edited list verbatim — in particular a row edited to
quantity zero is retained as a zero row. -/
theorem claim_C3_amended :
    (∀ (rates prices : List (String × ℚ)) (cc cn : String)
      (before : List (String × StockRow)) (bal : ℚ) (txs : List Tx),
      saveStocksClick rates prices cc cn before [] bal txs = none) ∧
    (∀ (rates prices : List (String × ℚ)) (cc cn : String)
      (before edited : List (String × StockRow)) (bal : ℚ) (txs : List Tx) (t : String),
      edited ≠ [] → alookup t edited = none →
      saveStocksClick rates prices cc cn before edited bal txs =
        some (applyStockSave rates prices cc cn before edited bal txs) ∧
      alookup t (applyStockSave rates prices cc cn before edited bal txs).stocks = none) ∧
    (∀ (rates prices : List (String × ℚ)) (cc cn : String)
      (before edited : List (String × StockRow)) (bal : ℚ) (txs : List Tx) (t : String)
      (row : StockRow),
      alookup t edited = some row →
      saveStocksClick rates prices cc cn before edited bal txs =
        some (applyStockSave rates prices cc cn before edited bal txs) ∧
      alookup t (applyStockSave rates prices cc cn before edited bal txs).stocks =
        some row) ∧
    (∀ (rates prices : List (String × ℚ)) (cc cn ticker : String) (o : StockRow)
      (st : SaveState),
      stockRowStep rates prices cc cn ticker (some o) none st =
        ⟨st.balance + o.quantity * priceGet prices ticker / rateGetN rates none *
            rateGet rates cc,
          ⟨"[自动] 卖出 " ++ ticker, "卖出股票", o.quantity * priceGet prices ticker, cc, cn,
            some ticker, some o.quantity,
            some ((priceGet prices ticker - o.average_cost) * o.quantity),
            none⟩ :: st.transactions⟩) := by
  refine ⟨?_, ?_, ?_, ?_⟩
  · intro rates prices cc cn before bal txs
    rfl
  · intro rates prices cc cn before edited bal txs t hne h
    cases edited with
    | nil => exact absurd rfl hne
    | cons e es => exact ⟨rfl, by simpa [applyStockSave] using h⟩
  · intro rates prices cc cn before edited bal txs t row h
    cases edited with
    | nil => simp [alookup] at h
    | cons e es => exact ⟨rfl, by simpa [applyStockSave] using h⟩
  · intro rates prices cc cn ticker o st
    exact stockRowStep_delete rates prices cc cn ticker o st

/-- Claim C3, witness: deleting the only AAPL row empties the grid and the
save aborts; deleting the AAPL row while keeping MSFT completes and leaves
no AAPL holding; saving an explicit zero-quantity AAPL row retains it. -/
theorem claim_C3_witness :
    saveStocksClick [("USD", 1)] [("AAPL", 20)] "USD" "Main"
      [("AAPL", ⟨10, 10, "USD"⟩)] [] 1000 [] = none ∧
    (saveStocksClick [("USD", 1)] [("AAPL", 20)] "USD" "Main"
      [("AAPL", ⟨10, 10, "USD"⟩), ("MSFT", ⟨5, 30, "USD"⟩)]
      [("MSFT", ⟨5, 30, "USD"⟩)] 1000 [] =
      some (applyStockSave [("USD", 1)] [("AAPL", 20)] "USD" "Main"
        [("AAPL", ⟨10, 10, "USD"⟩), ("MSFT", ⟨5, 30, "USD"⟩)]
        [("MSFT", ⟨5, 30, "USD"⟩)] 1000 []) ∧
     alookup "AAPL" (applyStockSave [("USD", 1)] [("AAPL", 20)] "USD" "Main"
        [("AAPL", ⟨10, 10, "USD"⟩), ("MSFT", ⟨5, 30, "USD"⟩)]
        [("MSFT", ⟨5, 30, "USD"⟩)] 1000 []).stocks = none) ∧
    (saveStocksClick [("USD", 1)] [("AAPL", 20)] "USD" "Main"
      [("AAPL", ⟨10, 10, "USD"⟩)] [("AAPL", ⟨0, 10, "USD"⟩)] 1000 [] =
      some (applyStockSave [("USD", 1)] [("AAPL", 20)] "USD" "Main"
        [("AAPL", ⟨10, 10, "USD"⟩)] [("AAPL", ⟨0, 10, "USD"⟩)] 1000 []) ∧
     alookup "AAPL" (applyStockSave [("USD", 1)] [("AAPL", 20)] "USD" "Main"
        [("AAPL", ⟨10, 10, "USD"⟩)] [("AAPL", ⟨0, 10, "USD"⟩)] 1000 []).stocks =
        some ⟨0, 10, "USD"⟩) :=
  ⟨claim_C3_amended.1 [("USD", 1)] [("AAPL", 20)] "USD" "Main"
      [("AAPL", ⟨10, 10, "USD"⟩)] 1000 [],
    claim_C3_amended.2.1 [("USD", 1)] [("AAPL", 20)] "USD" "Main"
      [("AAPL", ⟨10, 10, "USD"⟩), ("MSFT", ⟨5, 30, "USD"⟩)]
      [("MSFT", ⟨5, 30, "USD"⟩)] 1000 [] "AAPL" (by simp) rfl,
    claim_C3_amended.2.2.1 [("USD", 1)] [("AAPL", 20)] "USD" "Main"
      [("AAPL", ⟨10, 10, "USD"⟩)] [("AAPL", ⟨0, 10, "USD"⟩)] 1000 [] "AAPL" ⟨0, 10, "USD"⟩
      (by simp [alookup])⟩

/-- Claim C4, counterexample.  The claim says converting with a currency
absent from the FX table fails with `RateUnavailable`.  The code's lookups
are `exchange_rates.get(c, 1)`: with a table containing only USD, converting
100 EUR to USD silently uses rate 1 and returns 100 — no failure, no
logging. -/
theorem claim_C4_counterexample :
    alookup "EUR" [("USD", (1 : ℚ))] = none ∧
    convert 100 "EUR" "USD" [("USD", 1)] = 100 := by
  have h1 : rateGet [("USD", (1 : ℚ))] "EUR" = 1 := rfl
  have h2 : rateGet [("USD", (1 : ℚ))] "USD" = 1 := rfl
  refine ⟨rfl, ?_⟩
  rw [convert, h1, h2]
  norm_num

/-- Claim C4, amended.  A conversion never fails: a currency absent from the
rate table silently defaults to rate 1 (`dict.get(c, 1)`), so a missing
source currency makes `convert` return `amount * rate(to)` and a missing
target currency makes it return `amount / rate(from)`; there is no
`RateUnavailable` error and no logged fallback decision. -/
theorem claim_C4_amended :
    ∀ (amount : ℚ) (fromCurrency toCurrency : String) (rates : List (String × ℚ)),
      (alookup fromCurrency rates = none →
        convert amount fromCurrency toCurrency rates = amount * rateGet rates toCurrency) ∧
      (alookup toCurrency rates = none →
        convert amount fromCurrency toCurrency rates = amount / rateGet rates fromCurrency) := by
  intro amount fromCurrency toCurrency rates
  constructor
  · intro h
    simp [convert, rateGet, dictGetD, h]
  · intro h
    simp [convert, rateGet, dictGetD, h]

/-- Claim C4, witness: the amended theorem applied to a table holding only
USD. -/
theorem claim_C4_witness :
    convert 100 "EUR" "USD" [("USD", (1 : ℚ))] = 100 * rateGet [("USD", (1 : ℚ))] "USD" :=
  (claim_C4_amended 100 "EUR" "USD" [("USD", (1 : ℚ))]).1 (by simp [alookup])

/-- Claim C5: for every partial sell of `q = old - new` units of a holding
with average cost `a`, the recorded transaction's proceeds are
`p = q * price` and its realized P&L is `p - q * a`, with `pl_currency` the
holding's currency — in both the stock and crypto diff loops (a crypto cost
basis is always USD). -/
theorem claim_C5 :
    (∀ (rates prices : List (String × ℚ)) (cc cn ticker : String) (o n : StockRow)
      (st : SaveState), n.quantity < o.quantity →
      (stockRowStep rates prices cc cn ticker (some o) (some n) st).transactions =
        ⟨"[自动] 卖出 " ++ ticker, "卖出股票",
          (o.quantity - n.quantity) * priceGet prices ticker, cc, cn, some ticker,
          some (o.quantity - n.quantity),
          some ((o.quantity - n.quantity) * priceGet prices ticker -
            (o.quantity - n.quantity) * o.average_cost),
          some n.currency⟩ :: st.transactions) ∧
    (∀ (rates prices : List (String × ℚ)) (cc cn symbol : String) (o n : CryptoRow)
      (st : SaveState), n.quantity < o.quantity →
      (cryptoRowStep rates prices cc cn symbol (some o) (some n) st).transactions =
        ⟨"[自动] 卖出 " ++ symbol, "卖出加密货币",
          (o.quantity - n.quantity) * priceGet prices symbol, cc, cn, some symbol,
          some (o.quantity - n.quantity),
          some ((o.quantity - n.quantity) * priceGet prices symbol -
            (o.quantity - n.quantity) * o.average_cost),
          some "USD"⟩ :: st.transactions) := by
  constructor
  · intro rates prices cc cn ticker o n st h
    rw [stockRowStep_sell rates prices cc cn ticker o n st h]
    have hpl : (priceGet prices ticker - o.average_cost) * (o.quantity - n.quantity) =
        (o.quantity - n.quantity) * priceGet prices ticker -
          (o.quantity - n.quantity) * o.average_cost := by ring
    rw [hpl]
  · intro rates prices cc cn symbol o n st h
    rw [cryptoRowStep_sell rates prices cc cn symbol o n st h]
    have hpl : (priceGet prices symbol - o.average_cost) * (o.quantity - n.quantity) =
        (o.quantity - n.quantity) * priceGet prices symbol -
          (o.quantity - n.quantity) * o.average_cost := by ring
    rw [hpl]

/-- Claim C5, witness: selling 4 of 10 AAPL held at average cost 10 records
realized P&L `proceeds - 4 * 10`. -/
theorem claim_C5_witness :
    (stockRowStep [("USD", 1)] [("AAPL", 20)] "USD" "Main" "AAPL"
      (some ⟨10, 10, "USD"⟩) (some ⟨6, 10, "USD"⟩) ⟨1000, []⟩).transactions =
      [⟨"[自动] 卖出 " ++ "AAPL", "卖出股票", ((10 : ℚ) - 6) * priceGet [("AAPL", 20)] "AAPL",
        "USD", "Main", some "AAPL", some ((10 : ℚ) - 6),
        some (((10 : ℚ) - 6) * priceGet [("AAPL", 20)] "AAPL" - ((10 : ℚ) - 6) * 10),
        some "USD"⟩] :=
  claim_C5.1 [("USD", 1)] [("AAPL", 20)] "USD" "Main" "AAPL"
    ⟨10, 10, "USD"⟩ ⟨6, 10, "USD"⟩ ⟨1000, []⟩ (by norm_num)

/-- Claim C7: snapshot creation is idempotent per (user, date): running
`update_asset_snapshot` twice changes nothing over running it once, an
existing snapshot is left untouched, and when no snapshot exists the single
computed document is stored exactly once. -/
theorem claim_C7 :
    ∀ (store : List (String × SnapshotDoc)) (emailHash todayStr : String)
      (assets liabilities stockV cashV cryptoV goldV : ℚ) (rates : List (String × ℚ)),
      update_asset_snapshot
          (update_asset_snapshot store emailHash todayStr assets liabilities stockV cashV
            cryptoV goldV rates)
          emailHash todayStr assets liabilities stockV cashV cryptoV goldV rates =
        update_asset_snapshot store emailHash todayStr assets liabilities stockV cashV
          cryptoV goldV rates ∧
      (∀ d, alookup (snapshotPath emailHash todayStr) store = some d →
        update_asset_snapshot store emailHash todayStr assets liabilities stockV cashV
          cryptoV goldV rates = store) ∧
      (alookup (snapshotPath emailHash todayStr) store = none →
        alookup (snapshotPath emailHash todayStr)
            (update_asset_snapshot store emailHash todayStr assets liabilities stockV cashV
              cryptoV goldV rates) =
          some (mkSnapshot todayStr assets liabilities stockV cashV cryptoV goldV rates) ∧
        (update_asset_snapshot store emailHash todayStr assets liabilities stockV cashV
            cryptoV goldV rates).countP
          (fun p => decide (p.1 = snapshotPath emailHash todayStr)) = 1) := by
  intro store emailHash todayStr assets liabilities stockV cashV cryptoV goldV rates
  refine ⟨?_, ?_, ?_⟩
  · cases h : alookup (snapshotPath emailHash todayStr) store with
    | some d => simp [update_asset_snapshot, h]
    | none => simp [update_asset_snapshot, h, alookup_cons_self]
  · intro d hd
    simp [update_asset_snapshot, hd]
  · intro h
    constructor
    · simp [update_asset_snapshot, h, alookup_cons_self]
    · simp only [update_asset_snapshot, h]
      rw [List.countP_cons]
      simp [countP_eq_zero_of_alookup_none h]

/-- Claim C7, witness: on an empty store, the snapshot for one user and day
is created once, is found afterwards, and a repeated call changes nothing. -/
theorem claim_C7_witness :
    update_asset_snapshot
        (update_asset_snapshot [] "u1" "2024-01-01" 100 20 50 30 10 10 [("USD", 1)])
        "u1" "2024-01-01" 100 20 50 30 10 10 [("USD", 1)] =
      update_asset_snapshot [] "u1" "2024-01-01" 100 20 50 30 10 10 [("USD", 1)] ∧
    alookup (snapshotPath "u1" "2024-01-01")
        (update_asset_snapshot [] "u1" "2024-01-01" 100 20 50 30 10 10 [("USD", 1)]) =
      some (mkSnapshot "2024-01-01" 100 20 50 30 10 10 [("USD", 1)]) ∧
    (update_asset_snapshot [] "u1" "2024-01-01" 100 20 50 30 10 10 [("USD", 1)]).countP
      (fun p => decide (p.1 = snapshotPath "u1" "2024-01-01")) = 1 := by
  have h := claim_C7 [] "u1" "2024-01-01" 100 20 50 30 10 10 [("USD", 1)]
  exact ⟨h.1, (h.2.2 rfl).1, (h.2.2 rfl).2⟩

/-- Claim C9: converting an amount from currency A to B and back, with both
currencies present in the rate table (with the nonzero rates a rate table
carries), returns exactly the original amount — the rational-number model of
"equal within floating tolerance". -/
theorem claim_C9 :
    ∀ (x : ℚ) (a b : String) (rates : List (String × ℚ)) (ra rb : ℚ),
      alookup a rates = some ra → ra ≠ 0 → alookup b rates = some rb → rb ≠ 0 →
      convert (convert x a b rates) b a rates = x := by
  intro x a b rates ra rb ha hra hb hrb
  have h1 : rateGet rates a = ra := by simp [rateGet, dictGetD, ha]
  have h2 : rateGet rates b = rb := by simp [rateGet, dictGetD, hb]
  rw [convert, convert, h1, h2]
  field_simp
  ring

/-- Claim C9, witness: a USD amount converted to EUR at rate 2 and back is
unchanged. -/
theorem claim_C9_witness :
    convert (convert 100 "USD" "EUR" [("USD", 1), ("EUR", 2)]) "EUR" "USD"
      [("USD", 1), ("EUR", 2)] = 100 :=
  claim_C9 100 "USD" "EUR" [("USD", 1), ("EUR", 2)] 1 2 rfl (by norm_num) rfl (by norm_num)

/-- Claim C10: a missing market price defaults to 0 —
`get_prices_from_market_data` stores 0 for every ticker absent from the
market data — and a sell (partial via a quantity decrease, or full via row
deletion) at price 0 records proceeds 0, leaves the cash balance unchanged,
and records realized P&L `-(average_cost * quantity_sold)`. -/
theorem claim_C10 :
    (∀ (marketData : List (String × ℚ)) (tickers : List String),
      (∀ t ∈ tickers, alookup t marketData = none) →
      ∀ s, priceGet (get_prices_from_market_data marketData tickers) s = 0) ∧
    (∀ (rates prices : List (String × ℚ)) (cc cn ticker : String) (o n : StockRow)
      (st : SaveState), n.quantity < o.quantity → priceGet prices ticker = 0 →
      stockRowStep rates prices cc cn ticker (some o) (some n) st =
        ⟨st.balance,
          ⟨"[自动] 卖出 " ++ ticker, "卖出股票", 0, cc, cn, some ticker,
            some (o.quantity - n.quantity),
            some (-(o.average_cost * (o.quantity - n.quantity))),
            some n.currency⟩ :: st.transactions⟩) ∧
    (∀ (rates prices : List (String × ℚ)) (cc cn ticker : String) (o : StockRow)
      (st : SaveState), priceGet prices ticker = 0 →
      stockRowStep rates prices cc cn ticker (some o) none st =
        ⟨st.balance,
          ⟨"[自动] 卖出 " ++ ticker, "卖出股票", 0, cc, cn, some ticker,
            some o.quantity, some (-(o.average_cost * o.quantity)),
            none⟩ :: st.transactions⟩) := by
  refine ⟨?_, ?_, ?_⟩
  · intro marketData tickers hmd s
    exact priceGet_of_allZero
      (foldl_dinsert_allZero marketData tickers [] (by simp) hmd) s
  · intro rates prices cc cn ticker o n st hq hp
    rw [stockRowStep_sell rates prices cc cn ticker o n st hq, hp]
    simp [mul_zero, zero_div, zero_mul, add_zero, zero_sub, neg_mul]
  · intro rates prices cc cn ticker o st hp
    rw [stockRowStep_delete, hp]
    simp [mul_zero, zero_div, zero_mul, add_zero, zero_sub, neg_mul]

/-- Claim C10, witness: with empty market data, AAPL's price defaults to 0
and a partial sell of 4 of 10 AAPL credits nothing and records realized P&L
`-40`. -/
theorem claim_C10_witness :
    priceGet (get_prices_from_market_data [] ["AAPL"]) "AAPL" = 0 ∧
    stockRowStep [("USD", 1)] (get_prices_from_market_data [] ["AAPL"]) "USD" "Main" "AAPL"
      (some ⟨10, 10, "USD"⟩) (some ⟨6, 10, "USD"⟩) ⟨1000, []⟩ =
      ⟨1000,
        [⟨"[自动] 卖出 " ++ "AAPL", "卖出股票", 0, "USD", "Main", some "AAPL",
          some ((10 : ℚ) - 6), some (-((10 : ℚ) * ((10 : ℚ) - 6))), some "USD"⟩]⟩ := by
  have hall : ∀ t ∈ ["AAPL"], alookup t ([] : List (String × ℚ)) = none := by
    intro t _
    rfl
  have hp := claim_C10.1 [] ["AAPL"] hall "AAPL"
  exact ⟨hp, claim_C10.2.1 [("USD", 1)] (get_prices_from_market_data [] ["AAPL"])
    "USD" "Main" "AAPL" ⟨10, 10, "USD"⟩ ⟨6, 10, "USD"⟩ ⟨1000, []⟩ (by norm_num) hp⟩

/-- Python's `max(xs, key=date)` as folded in `get_closest_snapshot` returns
a member of the list whose date bounds every member's date. -/
theorem foldlMaxDate_spec (xs : List Snapshot) :
    ∀ x : Snapshot,
      xs.foldl (fun b y => if b.date < y.date then y else b) x ∈ x :: xs ∧
      ∀ y ∈ x :: xs,
        y.date ≤ (xs.foldl (fun b y => if b.date < y.date then y else b) x).date := by
  induction xs with
  | nil => intro x; simp
  | cons z zs ih =>
      intro x
      simp only [List.foldl_cons]
      obtain ⟨hmem, hle⟩ := ih (if x.date < z.date then z else x)
      have hinit := hle (if x.date < z.date then z else x) (by simp)
      have hxstep : x.date ≤ (if x.date < z.date then z else x).date := by
        by_cases hxz : x.date < z.date
        · simp [hxz, le_of_lt hxz]
        · simp [hxz]
      have hzstep : z.date ≤ (if x.date < z.date then z else x).date := by
        by_cases hxz : x.date < z.date
        · simp [hxz]
        · simp [hxz, le_of_not_lt hxz]
      constructor
      · rcases List.mem_cons.mp hmem with h | h
        · rw [h]
          by_cases hxz : x.date < z.date
          · simp [hxz]
          · simp [hxz]
        · simp [h]
      · intro y hy
        rcases List.mem_cons.mp hy with h | h
        · subst h
          exact le_trans hxstep hinit
        · rcases List.mem_cons.mp h with h' | h'
          · subst h'
            exact le_trans hzstep hinit
          · exact hle y (by simp [h'])

/-- Claim C8: `get_closest_snapshot` returns `None` exactly when the history
is empty or every snapshot is dated after the target, and any returned
snapshot is a member of the history dated on or before the target whose date
dominates every other on-or-before-target snapshot. -/
theorem claim_C8 :
    ∀ (targetDate : ℕ) (assetHistory : List Snapshot),
      (get_closest_snapshot targetDate assetHistory = none ↔
        ∀ s ∈ assetHistory, targetDate < s.date) ∧
      ∀ s, get_closest_snapshot targetDate assetHistory = some s →
        s ∈ assetHistory ∧ s.date ≤ targetDate ∧
        ∀ r ∈ assetHistory, r.date ≤ targetDate → r.date ≤ s.date := by
  intro targetDate assetHistory
  cases assetHistory with
  | nil => simp [get_closest_snapshot]
  | cons a as =>
      cases hf : (a :: as).filter (fun s => decide (s.date ≤ targetDate)) with
      | nil =>
          have hforall : ∀ s ∈ a :: as, targetDate < s.date := by
            intro s hs
            have h := List.filter_eq_nil_iff.mp hf s hs
            simpa using Nat.lt_of_not_le (by simpa using h)
          have hres0 : get_closest_snapshot targetDate (a :: as) = none := by
            simp only [get_closest_snapshot, hf]
          constructor
          · rw [hres0]
            exact iff_of_true rfl hforall
          · intro s hs
            rw [hres0] at hs
            cases hs
      | cons x xs =>
          have hx : x ∈ (a :: as).filter (fun s => decide (s.date ≤ targetDate)) := by
            rw [hf]; simp
          obtain ⟨hxmem, hxle⟩ := List.mem_filter.mp hx
          obtain ⟨hmem, hmle⟩ := foldlMaxDate_spec xs x
          have hres : get_closest_snapshot targetDate (a :: as) =
              some (xs.foldl (fun b y => if b.date < y.date then y else b) x) := by
            simp only [get_closest_snapshot, hf]
          constructor
          · rw [hres]
            constructor
            · intro h; cases h
            · intro h
              exact absurd (h x hxmem) (by simpa using hxle)
          · intro s hs
            rw [hres] at hs
            have hsm : s = xs.foldl (fun b y => if b.date < y.date then y else b) x :=
              (Option.some_injective _ hs).symm
            subst hsm
            have hmem' : (xs.foldl (fun b y => if b.date < y.date then y else b) x) ∈
                (a :: as).filter (fun s => decide (s.date ≤ targetDate)) := by
              rw [hf]; exact hmem
            obtain ⟨hmem2, hle2⟩ := List.mem_filter.mp hmem'
            refine ⟨hmem2, by simpa using hle2, ?_⟩
            intro r hr hrle
            have hrf : r ∈ (a :: as).filter (fun s => decide (s.date ≤ targetDate)) :=
              List.mem_filter.mpr ⟨hr, by simpa using hrle⟩
            rw [hf] at hrf
            exact hmle r hrf

/-- Claim C8, witness: with history dated 3 and 7 and target 5, the snapshot
dated 3 is returned, belongs to the history, and dominates every snapshot
dated at most 5. -/
theorem claim_C8_witness :
    get_closest_snapshot 5 [⟨3, 0⟩, ⟨7, 0⟩] = some ⟨3, 0⟩ ∧
    (⟨3, 0⟩ : Snapshot) ∈ [(⟨3, 0⟩ : Snapshot), ⟨7, 0⟩] ∧
    (⟨3, 0⟩ : Snapshot).date ≤ 5 := by
  have hres : get_closest_snapshot 5 [⟨3, 0⟩, ⟨7, 0⟩] = some ⟨3, 0⟩ := rfl
  have h := (claim_C8 5 [⟨3, 0⟩, ⟨7, 0⟩]).2 ⟨3, 0⟩ hres
  exact ⟨hres, h.1, h.2.1⟩

/-- Invariant of a chain of buy edits on one ticker: the edits append one
buy transaction each, the quantity never decreases, and the holding's cost
basis (`quantity * average_cost`) grows by exactly the sum of the recorded
buy amounts — the inferred amount `q_new*c_new - q_old*c_old` telescopes. -/
theorem applyStockEdits_buys (rates prices : List (String × ℚ))
    (cc cn ticker currency : String) :
    ∀ (edits : List (ℚ × ℚ)) (r : StockRow) (st : SaveState),
      buyChainB r.quantity edits = true →
      ∃ (r' : StockRow) (bal : ℚ) (newTxs : List Tx),
        applyStockEdits rates prices cc cn ticker currency (some r) edits st =
          (some r', ⟨bal, newTxs ++ st.transactions⟩) ∧
        newTxs.length = edits.length ∧
        r'.quantity * r'.average_cost =
          r.quantity * r.average_cost + (newTxs.map Tx.amount).sum ∧
        r.quantity ≤ r'.quantity := by
  intro edits
  induction edits with
  | nil =>
      intro r st _
      exact ⟨r, st.balance, [], rfl, rfl, by simp, le_refl _⟩
  | cons e rest ih =>
      intro r st hchain
      obtain ⟨q, a⟩ := e
      simp only [buyChainB, Bool.and_eq_true, decide_eq_true_eq] at hchain
      obtain ⟨hlt, hrest⟩ := hchain
      have hstep := stockRowStep_buy rates prices cc cn ticker r ⟨q, a, currency⟩ st hlt
      obtain ⟨r', bal, newTxs₁, heq, hlen, hsum, hmono⟩ :=
        ih ⟨q, a, currency⟩
          (stockRowStep rates prices cc cn ticker (some r) (some ⟨q, a, currency⟩) st) hrest
      refine ⟨r', bal,
        newTxs₁ ++ [⟨"[自动] 买入 " ++ ticker, "买入股票",
          q * a - r.quantity * r.average_cost, cc, cn, some ticker,
          some (q - r.quantity), none, none⟩], ?_, ?_, ?_, ?_⟩
      · have h0 : applyStockEdits rates prices cc cn ticker currency (some r)
            ((q, a) :: rest) st =
            applyStockEdits rates prices cc cn ticker currency (some ⟨q, a, currency⟩) rest
              (stockRowStep rates prices cc cn ticker (some r) (some ⟨q, a, currency⟩) st) :=
          rfl
        rw [h0, heq, hstep]
        simp
      · simp [hlen]
      · rw [hsum]
        simp only [List.map_append, List.sum_append, List.map_cons, List.map_nil,
          List.sum_cons, List.sum_nil]
        ring
      · exact le_trans (le_of_lt hlt) hmono

/-- Claim C6: a Buy against an existing holding with old quantity `q0` and
average cost `a0` records the inferred total cost
`c = q1*a1 - q0*a0`, and the edited row satisfies the weighted-average
equations: new quantity `q0 + d` and new average cost
`(a0*q0 + c) / (q0 + d)` where `d` is the bought quantity.  Consequently,
over any chain of Buys starting from no holding, the final average cost is
the sum of all recorded buy amounts divided by the final (total bought)
quantity. -/
theorem claim_C6 :
    (∀ (rates prices : List (String × ℚ)) (cc cn ticker : String) (o n : StockRow)
      (st : SaveState), 0 ≤ o.quantity → o.quantity < n.quantity →
      (stockRowStep rates prices cc cn ticker (some o) (some n) st).transactions =
        ⟨"[自动] 买入 " ++ ticker, "买入股票",
          n.quantity * n.average_cost - o.quantity * o.average_cost, cc, cn, some ticker,
          some (n.quantity - o.quantity), none, none⟩ :: st.transactions ∧
      n.quantity = o.quantity + (n.quantity - o.quantity) ∧
      n.average_cost = (o.average_cost * o.quantity +
          (n.quantity * n.average_cost - o.quantity * o.average_cost)) /
        (o.quantity + (n.quantity - o.quantity))) ∧
    (∀ (rates prices : List (String × ℚ)) (cc cn ticker currency : String)
      (edits : List (ℚ × ℚ)) (st : SaveState),
      buyChainB 0 edits = true → edits ≠ [] →
      ∃ (r' : StockRow) (bal : ℚ) (newTxs : List Tx),
        applyStockEdits rates prices cc cn ticker currency none edits st =
          (some r', ⟨bal, newTxs ++ st.transactions⟩) ∧
        newTxs.length = edits.length ∧ 0 < r'.quantity ∧
        r'.average_cost = (newTxs.map Tx.amount).sum / r'.quantity) := by
  constructor
  · intro rates prices cc cn ticker o n st hq0 hlt
    refine ⟨?_, by ring, ?_⟩
    · rw [stockRowStep_buy rates prices cc cn ticker o n st hlt]
    · have hq : o.quantity + (n.quantity - o.quantity) = n.quantity := by ring
      rw [hq]
      have hnz : n.quantity ≠ 0 := ne_of_gt (lt_of_le_of_lt hq0 hlt)
      field_simp
      ring
  · intro rates prices cc cn ticker currency edits st hchain hne
    cases edits with
    | nil => exact absurd rfl hne
    | cons e rest =>
        obtain ⟨q, a⟩ := e
        simp only [buyChainB, Bool.and_eq_true, decide_eq_true_eq] at hchain
        obtain ⟨hpos, hrest⟩ := hchain
        obtain ⟨r', bal, newTxs₁, heq, hlen, hsum, hmono⟩ :=
          applyStockEdits_buys rates prices cc cn ticker currency rest ⟨q, a, currency⟩
            (stockRowStep rates prices cc cn ticker none (some ⟨q, a, currency⟩) st) hrest
        have hstep := stockRowStep_create rates prices cc cn ticker ⟨q, a, currency⟩ st
        have hq' : 0 < r'.quantity := lt_of_lt_of_le hpos hmono
        refine ⟨r', bal,
          newTxs₁ ++ [⟨"[自动] 买入 " ++ ticker, "买入股票", q * a, cc, cn, some ticker,
            some q, none, none⟩], ?_, ?_, hq', ?_⟩
        · have h0 : applyStockEdits rates prices cc cn ticker currency none
              ((q, a) :: rest) st =
              applyStockEdits rates prices cc cn ticker currency (some ⟨q, a, currency⟩) rest
                (stockRowStep rates prices cc cn ticker none (some ⟨q, a, currency⟩) st) :=
            rfl
          rw [h0, heq, hstep]
          simp
        · simp [hlen]
        · rw [eq_div_iff (ne_of_gt hq')]
          simp only [List.map_append, List.sum_append, List.map_cons, List.map_nil,
            List.sum_cons, List.sum_nil]
          rw [mul_comm, hsum]
          ring

/-- Claim C6, witness: buying 6 more of 10 AAPL held at average cost 10 so
the edited average cost is 15 infers cost `16*15 - 10*10`, and the two-buy
chain (10 @ 10, then up to 20 @ 15) yields a holding whose average cost is
the sum of the two recorded amounts over the final quantity. -/
theorem claim_C6_witness :
    ((stockRowStep [("USD", 1)] [] "USD" "Main" "AAPL"
      (some ⟨10, 10, "USD"⟩) (some ⟨16, 15, "USD"⟩) ⟨1000, []⟩).transactions =
      ⟨"[自动] 买入 " ++ "AAPL", "买入股票", (16 : ℚ) * 15 - 10 * 10, "USD", "Main",
        some "AAPL", some ((16 : ℚ) - 10), none, none⟩ :: [] ∧
      (16 : ℚ) = 10 + (16 - 10) ∧
      (15 : ℚ) = (10 * 10 + ((16 : ℚ) * 15 - 10 * 10)) / (10 + (16 - 10))) ∧
    (∃ (r' : StockRow) (bal : ℚ) (newTxs : List Tx),
      applyStockEdits [("USD", 1)] [] "USD" "Main" "AAPL" "USD" none
          [((10 : ℚ), (10 : ℚ)), ((20 : ℚ), (15 : ℚ))] ⟨1000, []⟩ =
        (some r', ⟨bal, newTxs ++ []⟩) ∧
      newTxs.length = 2 ∧ 0 < r'.quantity ∧
      r'.average_cost = (newTxs.map Tx.amount).sum / r'.quantity) :=
  ⟨claim_C6.1 [("USD", 1)] [] "USD" "Main" "AAPL" ⟨10, 10, "USD"⟩ ⟨16, 15, "USD"⟩
      ⟨1000, []⟩ (by norm_num) (by norm_num),
    claim_C6.2 [("USD", 1)] [] "USD" "Main" "AAPL" "USD"
      [((10 : ℚ), (10 : ℚ)), ((20 : ℚ), (15 : ℚ))] ⟨1000, []⟩
      (by norm_num [buyChainB]) (by simp)⟩

end InvestmentDashboard
